import Mathlib

/-!
Verification of the data-preparation utilities of the marketing-campaign
causal-impact repository (`src/utils.py`).

The tabular data model is a shallow embedding of a pandas DataFrame as an
ordered association list of named columns, each column a list of cell
values.  The four functions under study — `reconstruct_contact_date`,
`create_pseudo_customer_id`, `plot_covariate_balance` and
`create_sample_flow_diagram` — are translated as pure, executable Lean
functions; raising an exception is modelled by returning `Except Err`.
-/

set_option autoImplicit false

/-- A single cell of a table: strings, integers, or the composed calendar
dates produced by the date reconstructor. -/
inductive Value where
  | vStr : String → Value
  | vInt : Int → Value
  | vDate : Int → Nat → Int → Value
deriving DecidableEq, Repr

/-- The exceptions the Python code can raise, by their role in the error
taxonomy: a missing required column or key, domain-invalid values
(carrying the raw offending cell values), an impossible calendar date, a
positional-index failure, and a missing dictionary key. -/
inductive Err where
  | missingFieldError : List String → Err
  | invalidValueError : List Value → Err
  | invalidDateError : Err
  | indexError : Err
  | keyError : String → Err
deriving DecidableEq, Repr

/-- A DataFrame: ordered named columns of cell values. -/
abbrev Table := List (String × List Value)

/-- The column names of a table, in order. -/
def colNames (t : Table) : List String := t.map Prod.fst

/-- `df[c]`: the values of the (first) column named `c`, if present. -/
def getCol (t : Table) (c : String) : Option (List Value) :=
  (t.find? (fun p => p.1 == c)).map Prod.snd

/-- `df[c] = vs`: overwrite the column named `c` in place if it exists,
otherwise append it at the end (pandas column assignment). -/
def setCol (t : Table) (c : String) (vs : List Value) : Table :=
  if c ∈ colNames t then t.map (fun p => if p.1 == c then (c, vs) else p)
  else t ++ [(c, vs)]

/-- `df.drop(columns=[c])`: remove every column named `c`. -/
def dropCol (t : Table) (c : String) : Table :=
  t.filter (fun p => p.1 != c)

/-- The number of rows of a table (the length of its first column). -/
def nRows (t : Table) : Nat :=
  match t with
  | [] => 0
  | p :: _ => p.2.length

/-- The cell at row `i` of column `c` (a harmless default outside
bounds; theorems restrict to in-bounds use). -/
def cellVal (t : Table) (c : String) (i : Nat) : Value :=
  ((getCol t c).getD []).getD i (.vStr "")

/-- A table is rectangular when every column has the common row count. -/
def Rectangular (t : Table) : Prop :=
  ∀ p ∈ t, p.2.length = nRows t

/-- First-occurrence deduplication with an explicit seen-set accumulator:
the order-preserving semantics of `pandas.Series.unique` and the
content semantics of a Python `set`. -/
def uniqueFirstAux {α : Type} [DecidableEq α] (seen : List α) : List α → List α
  | [] => []
  | v :: rest =>
    if v ∈ seen then uniqueFirstAux seen rest
    else v :: uniqueFirstAux (v :: seen) rest

/-- Deduplicate a list keeping the first occurrence of each element. -/
def uniqueFirst {α : Type} [DecidableEq α] (l : List α) : List α :=
  uniqueFirstAux [] l

/-- The fixed three-letter month-abbreviation table of
`reconstruct_contact_date`. -/
def month_map (s : String) : Option Nat :=
  if s = "jan" then some 1
  else if s = "feb" then some 2
  else if s = "mar" then some 3
  else if s = "apr" then some 4
  else if s = "may" then some 5
  else if s = "jun" then some 6
  else if s = "jul" then some 7
  else if s = "aug" then some 8
  else if s = "sep" then some 9
  else if s = "oct" then some 10
  else if s = "nov" then some 11
  else if s = "dec" then some 12
  else none

/-- `.str` accessor: only string cells have a string form; any other cell
becomes missing (NaN), exactly as `Series.str` does. -/
def strOf (v : Value) : Option String :=
  match v with
  | .vStr s => some s
  | _ => none

/-- ASCII lowercase of one character (the case Python's `str.lower`
performs on the month abbreviations). -/
def lowerChar (c : Char) : Char :=
  if 'A' ≤ c ∧ c ≤ 'Z' then Char.ofNat (c.toNat + 32) else c

/-- ASCII lowercase of a string. -/
def lowerStr (s : String) : String :=
  String.mk (s.data.map lowerChar)

/-- `df["month"].str.lower().map(month_map)` applied to one cell. -/
def monthNumOf (v : Value) : Option Nat :=
  (strOf v).bind (fun s => month_map (lowerStr s))

/-- Integer view of a cell, for the `day` column. -/
def intOf (v : Value) : Option Int :=
  match v with
  | .vInt n => some n
  | _ => none

/-- The year-inference loop of `reconstruct_contact_date`: scan the month
numbers in order carrying `(prev_month, current_year)`; a strict decrease
of the month number increments the year, which is then assigned to the
row. -/
def yearScan (prev : Nat) (cy : Int) : List Nat → List Int
  | [] => []
  | m :: rest =>
    let cy2 := if m < prev then cy + 1 else cy
    cy2 :: yearScan m cy2 rest

/-- The full year inference: `prev_month` starts at the first row's month
number, the running year at `start_year`, and the scan covers every row
(the first row compares against itself, so it can never increment). -/
def inferYears (start_year : Int) (nums : List Nat) : List Int :=
  match nums with
  | [] => []
  | m0 :: _ => yearScan m0 start_year nums

/-- Gregorian leap-year rule, used by date validation. -/
def isLeap (y : Int) : Bool :=
  y % 4 == 0 && (y % 100 != 0 || y % 400 == 0)

/-- Days in a month of a given year. -/
def daysInMonth (y : Int) (m : Nat) : Nat :=
  if m = 2 then (if isLeap y then 29 else 28)
  else if m = 4 ∨ m = 6 ∨ m = 9 ∨ m = 11 then 30
  else 31

/-- Validity of one `((year, month), day)` triple handed to
`pd.to_datetime`: the day cell must be an integer within the month. -/
def validTriple (tr : (Int × Nat) × Option Int) : Bool :=
  match tr.2 with
  | none => false
  | some d => decide (1 ≤ d ∧ d ≤ (daysInMonth tr.1.1 tr.1.2 : Int))

/-- `reconstruct_contact_date(df, additional_info, start_year)`:
validate the `month` column, map month abbreviations to numbers
(collecting the deduplicated raw invalid values into the error), read the
first row's month number (an index failure on an empty table), infer the
years by the sequential scan, compose `contact_date` from
`(year, month, day)` with `day` defaulting to 1, optionally derive
`quarter` and `year_quarter`, and drop the transient `month_num` working
column. -/
def reconstruct_contact_date (df : Table) (additional_info : Bool)
    (start_year : Int) : Except Err Table :=
  if "month" ∈ colNames df then
    let ms := (getCol df "month").getD []
    if ms.any (fun v => (monthNumOf v).isNone) then
      .error (.invalidValueError
        (uniqueFirst (ms.filter (fun v => (monthNumOf v).isNone))))
    else
      match ms.map (fun v => (monthNumOf v).getD 0) with
      | [] => .error .indexError
      | m0 :: rest =>
        let nums := m0 :: rest
        let years := inferYears start_year nums
        let df1 := setCol df "month_num"
          (nums.map (fun n => Value.vInt (Int.ofNat n)))
        let df2 := setCol df1 "year" (years.map Value.vInt)
        let days : List (Option Int) :=
          if "day" ∈ colNames df then ((getCol df "day").getD []).map intOf
          else List.replicate nums.length (some 1)
        let triples := (years.zip nums).zip days
        if triples.all validTriple then
          let dates := triples.map
            (fun tr => Value.vDate tr.1.1 tr.1.2 (tr.2.getD 1))
          let df3 := setCol df2 "contact_date" dates
          let df4 :=
            if additional_info then
              setCol
                (setCol df3 "quarter"
                  (nums.map (fun m => Value.vInt (Int.ofNat ((m - 1) / 3 + 1)))))
                "year_quarter"
                ((years.zip nums).map
                  (fun p => Value.vStr
                    (toString p.1 ++ "-Q" ++ toString ((p.2 - 1) / 3 + 1))))
            else df3
          .ok (dropCol df4 "month_num")
        else .error .invalidDateError
  else .error (.missingFieldError ["month"])

/-- The default identifier fields of `create_pseudo_customer_id`. -/
def default_id_cols : List String :=
  ["age", "job", "marital", "education", "housing", "loan", "contact"]

/-- `astype(str)` applied to one cell: its natural textual form. -/
def valueStr (v : Value) : String :=
  match v with
  | .vStr s => s
  | .vInt n => toString n
  | .vDate y m d => toString y ++ "-" ++ toString m ++ "-" ++ toString d

/-- `create_pseudo_customer_id(df, id_cols)`: default the field list,
fail with the set of missing fields if any requested field is absent,
otherwise append a `pseudo_id` column holding each row's field values
stringified and joined with underscores in field order. -/
def create_pseudo_customer_id (df : Table)
    (id_cols : Option (List String)) : Except Err Table :=
  let cols := id_cols.getD default_id_cols
  let missing := uniqueFirst (cols.filter (fun c => c ∉ colNames df))
  if missing.isEmpty then
    .ok (setCol df "pseudo_id"
      ((List.range (nRows df)).map (fun i =>
        Value.vStr (String.intercalate "_"
          (cols.map (fun c => valueStr (cellVal df c i)))))))
  else .error (.missingFieldError missing)

/-- The declarative content of the covariate-balance figure: bar lengths,
bar colors, and the two dashed reference lines. -/
structure BalanceFig where
  xs : List Rat
  colors : List String
  vlines : List Rat
deriving DecidableEq, Repr

/-- The color comprehension of `plot_covariate_balance`:
`green if x < 10 else orange if x < 20 else red`. -/
def barColor (x : Rat) : String :=
  if x < 10 then "green" else if x < 20 then "orange" else "red"

/-- `plot_covariate_balance(balance_df)`: one horizontal bar per
covariate, colored by the fixed thresholds, with reference lines at 10
and 20.  The input is the `Abs % Diff` column of the balance table. -/
def plot_covariate_balance (diffs : List Rat) : BalanceFig :=
  { xs := diffs
    colors := diffs.map barColor
    vlines := [10, 20] }

/-- One directed link of the Sankey flow diagram. -/
structure SankeyLink where
  source : Nat
  target : Nat
  value : Int
deriving DecidableEq, Repr

/-- The declarative content of the sample-flow Sankey figure. -/
structure SankeyFig where
  labels : List String
  nodeColors : List String
  links : List SankeyLink
deriving DecidableEq, Repr

/-- `d[k]` on a Python dict modelled as an association list: a missing
key raises `KeyError`. -/
def dictGet (d : List (String × Int)) (k : String) : Except Err Int :=
  match d.find? (fun p => p.1 == k) with
  | some p => .ok p.2
  | none => .error (.keyError k)

/-- `create_sample_flow_diagram(sample_counts)`: the fixed 7-node
topology with six links whose values come from the six required keys;
the second link carries `total_contacts - wave_1_and_2`. -/
def create_sample_flow_diagram (sample_counts : List (String × Int)) :
    Except Err SankeyFig := do
  let w ← dictGet sample_counts "wave_1_and_2"
  let t ← dictGet sample_counts "total_contacts"
  let s ← dictGet sample_counts "single_wave"
  let c ← dictGet sample_counts "cross_wave"
  let f1 ← dictGet sample_counts "final_wave_1"
  let f2 ← dictGet sample_counts "final_wave_2"
  return ⟨["All Contacts", "Wave 1 or 2", "Other Periods", "Single-Wave",
           "Cross-Wave", "Final Wave 1", "Final Wave 2"],
          ["lightgray", "lightblue", "lightgray", "lightgreen", "salmon",
           "green", "green"],
          [⟨0, 1, w⟩, ⟨0, 2, t - w⟩, ⟨1, 3, s⟩, ⟨1, 4, c⟩,
           ⟨3, 5, f1⟩, ⟨3, 6, f2⟩]⟩

/-! Properties of first-occurrence deduplication -/

theorem mem_uniqueFirstAux {α : Type} [DecidableEq α] (l : List α) :
    ∀ (seen : List α) (x : α), x ∈ uniqueFirstAux seen l ↔ x ∈ l ∧ x ∉ seen := by
  induction l with
  | nil => intro seen x; simp [uniqueFirstAux]
  | cons v rest ih =>
    intro seen x
    by_cases hv : v ∈ seen
    · rw [uniqueFirstAux, if_pos hv, ih]
      constructor
      · rintro ⟨h1, h2⟩; exact ⟨List.mem_cons_of_mem v h1, h2⟩
      · rintro ⟨h1, h2⟩
        rcases List.mem_cons.mp h1 with rfl | h1
        · exact absurd hv h2
        · exact ⟨h1, h2⟩
    · rw [uniqueFirstAux, if_neg hv]
      constructor
      · intro h
        rcases List.mem_cons.mp h with rfl | h
        · exact ⟨List.mem_cons_self x rest, hv⟩
        · rcases (ih (v :: seen) x).mp h with ⟨h1, h2⟩
          refine ⟨List.mem_cons_of_mem v h1, fun hx => h2 (List.mem_cons_of_mem v hx)⟩
      · rintro ⟨h1, h2⟩
        rcases List.mem_cons.mp h1 with rfl | h1
        · exact List.mem_cons_self x _
        · by_cases hxv : x = v
          · subst hxv; exact List.mem_cons_self x _
          · refine List.mem_cons_of_mem v ((ih (v :: seen) x).mpr ⟨h1, ?_⟩)
            intro hx
            rcases List.mem_cons.mp hx with h | h
            · exact hxv h
            · exact h2 h

theorem nodup_uniqueFirstAux {α : Type} [DecidableEq α] (l : List α) :
    ∀ seen : List α, (uniqueFirstAux seen l).Nodup := by
  induction l with
  | nil => intro seen; simp [uniqueFirstAux]
  | cons v rest ih =>
    intro seen
    by_cases hv : v ∈ seen
    · rw [uniqueFirstAux, if_pos hv]; exact ih seen
    · rw [uniqueFirstAux, if_neg hv]
      refine List.nodup_cons.mpr ⟨fun hmem => ?_, ih (v :: seen)⟩
      exact ((mem_uniqueFirstAux rest (v :: seen) v).mp hmem).2 (List.mem_cons_self v seen)

theorem mem_uniqueFirst {α : Type} [DecidableEq α] (l : List α) (x : α) :
    x ∈ uniqueFirst l ↔ x ∈ l := by
  rw [uniqueFirst, mem_uniqueFirstAux]
  simp

theorem nodup_uniqueFirst {α : Type} [DecidableEq α] (l : List α) :
    (uniqueFirst l).Nodup := nodup_uniqueFirstAux l []

theorem uniqueFirst_ne_nil {α : Type} [DecidableEq α] {l : List α} (h : l ≠ []) :
    uniqueFirst l ≠ [] := by
  obtain ⟨x, hx⟩ := List.exists_mem_of_ne_nil l h
  intro hcontra
  have hmem := (mem_uniqueFirst l x).mpr hx
  rw [hcontra] at hmem
  cases hmem

/-! Properties of the table operations -/

theorem colNames_cons (p : String × List Value) (rest : Table) :
    colNames (p :: rest) = p.1 :: colNames rest := rfl

theorem getCol_cons (p : String × List Value) (rest : Table) (c : String) :
    getCol (p :: rest) c = if p.1 = c then some p.2 else getCol rest c := by
  unfold getCol
  by_cases hp : p.1 = c
  · rw [List.find?_cons_of_pos _ (by simpa using hp), if_pos hp]
    rfl
  · rw [List.find?_cons_of_neg _ (by simpa using hp), if_neg hp]

theorem mem_colNames_of_getCol_some {t : Table} {c : String} {vs : List Value} :
    getCol t c = some vs → c ∈ colNames t := by
  induction t with
  | nil => intro h; cases h
  | cons p rest ih =>
    intro h
    rw [getCol_cons] at h
    rw [colNames_cons]
    by_cases hp : p.1 = c
    · exact List.mem_cons.mpr (Or.inl hp.symm)
    · rw [if_neg hp] at h
      exact List.mem_cons_of_mem _ (ih h)

theorem getCol_eq_none_of_not_mem {t : Table} {c : String} (h : c ∉ colNames t) :
    getCol t c = none := by
  induction t with
  | nil => rfl
  | cons p rest ih =>
    rw [colNames_cons] at h
    rw [getCol_cons, if_neg (fun hp => h (List.mem_cons.mpr (Or.inl hp.symm)))]
    exact ih (fun hc => h (List.mem_cons_of_mem _ hc))

theorem getCol_append (t u : Table) (c : String) :
    getCol (t ++ u) c = if c ∈ colNames t then getCol t c else getCol u c := by
  induction t with
  | nil => simp [colNames, getCol]
  | cons p rest ih =>
    rw [List.cons_append, getCol_cons, getCol_cons, colNames_cons]
    by_cases hp : p.1 = c
    · rw [if_pos hp, if_pos hp, if_pos (List.mem_cons.mpr (Or.inl hp.symm))]
    · rw [if_neg hp, if_neg hp, ih]
      by_cases hc : c ∈ colNames rest
      · rw [if_pos hc, if_pos (List.mem_cons_of_mem _ hc)]
      · rw [if_neg hc, if_neg (fun hmem => by
          rcases List.mem_cons.mp hmem with h1 | h1
          · exact hp h1.symm
          · exact hc h1)]

theorem getCol_append_left {t u : Table} {c : String} (h : c ∈ colNames t) :
    getCol (t ++ u) c = getCol t c := by
  rw [getCol_append, if_pos h]

theorem getCol_append_right {t u : Table} {c : String} (h : c ∉ colNames t) :
    getCol (t ++ u) c = getCol u c := by
  rw [getCol_append, if_neg h]

theorem colNames_append (t u : Table) : colNames (t ++ u) = colNames t ++ colNames u :=
  List.map_append Prod.fst t u

theorem dropCol_cons (p : String × List Value) (rest : Table) (c : String) :
    dropCol (p :: rest) c =
      if p.1 = c then dropCol rest c else p :: dropCol rest c := by
  unfold dropCol
  by_cases hp : p.1 = c
  · rw [List.filter_cons_of_neg (by simp [hp]), if_pos hp]
  · rw [List.filter_cons_of_pos (by simpa [bne_iff_ne] using hp), if_neg hp]

theorem dropCol_append (t u : Table) (c : String) :
    dropCol (t ++ u) c = dropCol t c ++ dropCol u c :=
  List.filter_append t u

theorem dropCol_eq_self {t : Table} {c : String} (h : c ∉ colNames t) :
    dropCol t c = t := by
  unfold dropCol
  apply List.filter_eq_self.mpr
  intro p hp
  simp only [bne_iff_ne, ne_eq]
  intro hpc
  exact h (List.mem_map.mpr ⟨p, hp, hpc⟩)

theorem not_mem_colNames_dropCol (t : Table) (c : String) :
    c ∉ colNames (dropCol t c) := by
  intro h
  rcases List.mem_map.mp h with ⟨p, hp, rfl⟩
  have := List.of_mem_filter hp
  simp at this

theorem getCol_dropCol_ne {t : Table} {c c0 : String} (h : c ≠ c0) :
    getCol (dropCol t c0) c = getCol t c := by
  induction t with
  | nil => rfl
  | cons p rest ih =>
    rw [dropCol_cons, getCol_cons]
    by_cases hp : p.1 = c0
    · rw [if_pos hp, ih, if_neg (by rw [hp]; intro hc; exact h hc.symm)]
    · rw [if_neg hp, getCol_cons, ih]

theorem setCol_of_not_mem {t : Table} {c : String} (vs : List Value)
    (h : c ∉ colNames t) : setCol t c vs = t ++ [(c, vs)] := by
  unfold setCol
  rw [if_neg h]

theorem colNames_setCol_of_not_mem {t : Table} {c : String} (vs : List Value)
    (h : c ∉ colNames t) : colNames (setCol t c vs) = colNames t ++ [c] := by
  rw [setCol_of_not_mem vs h, colNames_append]
  rfl

theorem getCol_map_replace_self {t : Table} {c : String} (vs : List Value)
    (h : c ∈ colNames t) :
    getCol (t.map (fun p => if p.1 == c then (c, vs) else p)) c = some vs := by
  induction t with
  | nil => cases h
  | cons p rest ih =>
    rw [colNames_cons] at h
    rw [List.map_cons]
    by_cases hp : p.1 = c
    · rw [if_pos (by simpa using hp), getCol_cons, if_pos rfl]
    · rw [if_neg (by simpa using hp), getCol_cons, if_neg hp]
      rcases List.mem_cons.mp h with h1 | h1
      · exact absurd h1.symm hp
      · exact ih h1

theorem getCol_setCol_self (t : Table) (c : String) (vs : List Value) :
    getCol (setCol t c vs) c = some vs := by
  unfold setCol
  by_cases h : c ∈ colNames t
  · rw [if_pos h]; exact getCol_map_replace_self vs h
  · rw [if_neg h, getCol_append_right h, getCol_cons, if_pos rfl]

theorem getCol_map_replace_ne {t : Table} {c c0 : String} (vs : List Value)
    (h : c ≠ c0) :
    getCol (t.map (fun p => if p.1 == c0 then (c0, vs) else p)) c = getCol t c := by
  induction t with
  | nil => rfl
  | cons p rest ih =>
    rw [List.map_cons]
    by_cases hp : p.1 = c0
    · rw [if_pos (by simpa using hp), getCol_cons, getCol_cons,
        if_neg (fun hc => h hc.symm), if_neg (by rw [hp]; intro hc; exact h hc.symm)]
      exact ih
    · rw [if_neg (by simpa using hp), getCol_cons, getCol_cons]
      by_cases hpc : p.1 = c
      · rw [if_pos hpc, if_pos hpc]
      · rw [if_neg hpc, if_neg hpc]
        exact ih

theorem getCol_setCol_ne {t : Table} {c c0 : String} (vs : List Value) (h : c ≠ c0) :
    getCol (setCol t c0 vs) c = getCol t c := by
  unfold setCol
  by_cases hm : c0 ∈ colNames t
  · rw [if_pos hm]; exact getCol_map_replace_ne vs h
  · rw [if_neg hm]
    by_cases hc : c ∈ colNames t
    · exact getCol_append_left hc
    · rw [getCol_append_right hc, getCol_cons, if_neg (fun hc2 => h hc2.symm),
        getCol_eq_none_of_not_mem hc]
      rfl

theorem nRows_append_left (t u : Table) (h : t ≠ []) : nRows (t ++ u) = nRows t := by
  cases t with
  | nil => exact absurd rfl h
  | cons p rest => rfl

theorem ne_nil_of_mem_colNames {t : Table} {c : String} (h : c ∈ colNames t) :
    t ≠ [] := by
  intro hnil
  subst hnil
  cases h

/-! Properties of the year-inference scan -/

theorem yearScan_length (l : List Nat) : ∀ (prev : Nat) (cy : Int),
    (yearScan prev cy l).length = l.length := by
  induction l with
  | nil => intro prev cy; rfl
  | cons m rest ih =>
    intro prev cy
    rw [yearScan]
    simp only [List.length_cons, ih]

theorem inferYears_length (sy : Int) (nums : List Nat) :
    (inferYears sy nums).length = nums.length := by
  cases nums with
  | nil => rfl
  | cons m0 rest => rw [inferYears]; exact yearScan_length _ _ _

theorem yearScan_mono (l : List Nat) : ∀ (prev : Nat) (cy : Int),
    List.Chain' (· ≤ ·) (yearScan prev cy l) := by
  induction l with
  | nil => intro prev cy; simp [yearScan]
  | cons m rest ih =>
    intro prev cy
    rw [yearScan]
    apply List.chain'_cons'.mpr
    refine ⟨?_, ih m _⟩
    intro b hb
    cases rest with
    | nil => simp [yearScan] at hb
    | cons m2 r2 =>
      rw [yearScan] at hb
      simp only [List.head?_cons, Option.mem_def, Option.some.injEq] at hb
      subst hb
      split <;> split <;> omega

theorem inferYears_mono (sy : Int) (nums : List Nat) :
    List.Chain' (· ≤ ·) (inferYears sy nums) := by
  cases nums with
  | nil => simp [inferYears]
  | cons m0 rest => rw [inferYears]; exact yearScan_mono _ _ _

theorem yearScan_chain_step (l : List Nat) : ∀ (prev : Nat) (cy : Int),
    List.Chain' (fun p q : Int × Nat => q.1 = if q.2 < p.2 then p.1 + 1 else p.1)
      ((yearScan prev cy l).zip l) := by
  induction l with
  | nil => intro prev cy; simp [yearScan]
  | cons m rest ih =>
    intro prev cy
    rw [yearScan]
    simp only [List.zip_cons_cons]
    apply List.chain'_cons'.mpr
    refine ⟨?_, ih m _⟩
    intro b hb
    cases rest with
    | nil => simp [yearScan] at hb
    | cons m2 r2 =>
      rw [yearScan] at hb
      simp only [List.zip_cons_cons, List.head?_cons, Option.mem_def,
        Option.some.injEq] at hb
      subst hb
      rfl

theorem inferYears_cons (sy : Int) (m0 : Nat) (rest : List Nat) :
    inferYears sy (m0 :: rest) = sy :: yearScan m0 sy rest := by
  rw [inferYears, yearScan]
  simp [Nat.lt_irrefl]

theorem inferYears_head (sy : Int) (m0 : Nat) (rest : List Nat) :
    (inferYears sy (m0 :: rest)).head? = some sy := by
  rw [inferYears_cons]
  rfl

theorem inferYears_chain_step (sy : Int) (nums : List Nat) :
    List.Chain' (fun p q : Int × Nat => q.1 = if q.2 < p.2 then p.1 + 1 else p.1)
      ((inferYears sy nums).zip nums) := by
  cases nums with
  | nil => simp [inferYears]
  | cons m0 rest => rw [inferYears]; exact yearScan_chain_step _ _ _

/-! Date-validity helpers -/

theorem one_le_daysInMonth (y : Int) (m : Nat) : 1 ≤ daysInMonth y m := by
  unfold daysInMonth
  split
  · split <;> omega
  · split <;> omega

theorem validTriple_day_one (y : Int) (m : Nat) :
    validTriple ((y, m), some 1) = true := by
  simp only [validTriple, decide_eq_true_eq]
  refine ⟨le_refl 1, ?_⟩
  exact_mod_cast one_le_daysInMonth y m

theorem all_validTriple_replicate (l : List (Int × Nat)) (n : Nat) :
    (l.zip (List.replicate n (some (1 : Int)))).all validTriple = true := by
  induction l generalizing n with
  | nil => rfl
  | cons p rest ih =>
    cases n with
    | zero => rfl
    | succ k =>
      rw [List.replicate_succ, List.zip_cons_cons, List.all_cons,
        validTriple_day_one, Bool.true_and]
      exact ih k

/-! Month-validity helpers -/

theorem forall_some_of_map_eq {ms : List Value} {nums : List Nat}
    (h : ms.map monthNumOf = nums.map some) :
    ms.any (fun v => (monthNumOf v).isNone) = false := by
  induction ms generalizing nums with
  | nil => rfl
  | cons v rest ih =>
    cases nums with
    | nil => cases h
    | cons n nrest =>
      rw [List.map_cons, List.map_cons] at h
      have h1 : monthNumOf v = some n := (List.cons.injEq _ _ _ _ ▸ h).1
      have h2 : rest.map monthNumOf = nrest.map some := (List.cons.injEq _ _ _ _ ▸ h).2
      rw [List.any_cons, h1]
      simp only [Option.isNone_some, Bool.false_or]
      exact ih h2

theorem map_getD_of_map_eq {ms : List Value} {nums : List Nat}
    (h : ms.map monthNumOf = nums.map some) :
    ms.map (fun v => (monthNumOf v).getD 0) = nums := by
  induction ms generalizing nums with
  | nil => cases nums with
    | nil => rfl
    | cons n nrest => cases h
  | cons v rest ih =>
    cases nums with
    | nil => cases h
    | cons n nrest =>
      rw [List.map_cons, List.map_cons] at h
      have h1 : monthNumOf v = some n := (List.cons.injEq _ _ _ _ ▸ h).1
      have h2 : rest.map monthNumOf = nrest.map some := (List.cons.injEq _ _ _ _ ▸ h).2
      rw [List.map_cons, h1, ih h2]
      rfl

theorem reconstruct_year_col (df : Table) (ai : Bool) (sy : Int) (out : Table)
    (h : reconstruct_contact_date df ai sy = .ok out) :
    ∃ m0 rest,
      ((getCol df "month").getD []).map (fun v => (monthNumOf v).getD 0) = m0 :: rest ∧
      getCol out "year" = some ((inferYears sy (m0 :: rest)).map Value.vInt) := by
  simp only [reconstruct_contact_date] at h
  split at h
  case isFalse => cases h
  case isTrue hmem =>
    split at h
    case isTrue => cases h
    case isFalse hnoinv =>
      split at h
      case h_1 => cases h
      case h_2 m0 rest heq =>
        split at h <;>
          (split at h
           case isFalse => cases h
           case isTrue hall =>
             rw [Except.ok.injEq] at h
             subst h
             refine ⟨m0, rest, heq, ?_⟩
             rw [getCol_dropCol_ne (by decide)]
             cases ai
             · rw [if_neg Bool.false_ne_true, getCol_setCol_ne _ (by decide),
                 getCol_setCol_self]
             · rw [if_pos rfl, getCol_setCol_ne _ (by decide),
                 getCol_setCol_ne _ (by decide), getCol_setCol_ne _ (by decide),
                 getCol_setCol_self])

theorem reconstruct_ok_of_valid (df : Table) (ai : Bool) (sy : Int)
    (ms : List Value) (m0 : Nat) (rest : List Nat)
    (hms : getCol df "month" = some ms)
    (hvalid : ms.map monthNumOf = (m0 :: rest).map some)
    (hday : "day" ∉ colNames df) :
    ∃ out, reconstruct_contact_date df ai sy = .ok out := by
  have hmem : "month" ∈ colNames df := mem_colNames_of_getCol_some hms
  have hno : ms.any (fun v => (monthNumOf v).isNone) = false := forall_some_of_map_eq hvalid
  have hnums : ms.map (fun v => (monthNumOf v).getD 0) = m0 :: rest := map_getD_of_map_eq hvalid
  simp only [reconstruct_contact_date, hmem, if_true, hms, Option.getD_some, hno,
    Bool.false_eq_true, if_false, hnums, hday, all_validTriple_replicate, if_true]
  exact ⟨_, rfl⟩

theorem not_mem_names_append {t u : Table} {c : String}
    (h1 : c ∉ colNames t) (h2 : c ∉ colNames u) : c ∉ colNames (t ++ u) := by
  rw [colNames_append]
  intro h
  rcases List.mem_append.mp h with h | h
  · exact h1 h
  · exact h2 h

theorem not_mem_colNames_single {c c0 : String} (vs : List Value) (h : c ≠ c0) :
    c ∉ colNames [(c0, vs)] := by
  intro hmem
  rw [colNames_cons] at hmem
  rcases List.mem_cons.mp hmem with h1 | h1
  · exact h h1
  · cases h1

theorem dropCol_single_self (c : String) (vs : List Value) :
    dropCol [(c, vs)] c = [] := by
  unfold dropCol
  rw [List.filter_cons_of_neg (by simp)]
  rfl

theorem dropCol_single_ne {c c0 : String} (vs : List Value) (h : c0 ≠ c) :
    dropCol [(c0, vs)] c = [(c0, vs)] := by
  unfold dropCol
  rw [List.filter_cons_of_pos (by simpa [bne_iff_ne] using h)]
  rfl

theorem reconstruct_ok_shape (df : Table) (ai : Bool) (sy : Int) (out : Table)
    (hmn : "month_num" ∉ colNames df) (hyr : "year" ∉ colNames df)
    (hcd : "contact_date" ∉ colNames df) (hq : "quarter" ∉ colNames df)
    (hyq : "year_quarter" ∉ colNames df)
    (hok : reconstruct_contact_date df ai sy = .ok out) :
    ∃ yv cv qv yqv,
      out = df ++ (if ai then
          [("year", yv), ("contact_date", cv), ("quarter", qv), ("year_quarter", yqv)]
        else [("year", yv), ("contact_date", cv)]) := by
  simp only [reconstruct_contact_date] at hok
  split at hok
  case isFalse => cases hok
  case isTrue hmem =>
  split at hok
  case isTrue => cases hok
  case isFalse hnoinv =>
  split at hok
  case h_1 => cases hok
  case h_2 m0 rest heq =>
  split at hok <;>
    (split at hok
     case isFalse => cases hok
     case isTrue hall =>
       rw [Except.ok.injEq] at hok
       split at hok
       case isTrue ha =>
         rw [setCol_of_not_mem _ hmn,
           setCol_of_not_mem _
             (not_mem_names_append hyr (not_mem_colNames_single _ (by decide))),
           setCol_of_not_mem _
             (not_mem_names_append
               (not_mem_names_append hcd (not_mem_colNames_single _ (by decide)))
               (not_mem_colNames_single _ (by decide))),
           setCol_of_not_mem _
             (not_mem_names_append
               (not_mem_names_append
                 (not_mem_names_append hq (not_mem_colNames_single _ (by decide)))
                 (not_mem_colNames_single _ (by decide)))
               (not_mem_colNames_single _ (by decide))),
           setCol_of_not_mem _
             (not_mem_names_append
               (not_mem_names_append
                 (not_mem_names_append
                   (not_mem_names_append hyq (not_mem_colNames_single _ (by decide)))
                   (not_mem_colNames_single _ (by decide)))
                 (not_mem_colNames_single _ (by decide)))
               (not_mem_colNames_single _ (by decide))),
           dropCol_append, dropCol_append, dropCol_append, dropCol_append,
           dropCol_append, dropCol_eq_self hmn, dropCol_single_self,
           dropCol_single_ne _ (by decide), dropCol_single_ne _ (by decide),
           dropCol_single_ne _ (by decide), dropCol_single_ne _ (by decide)] at hok
         simp only [List.append_assoc, List.append_nil, List.nil_append,
           List.singleton_append, List.cons_append] at hok
         exact ⟨_, _, _, _, by rw [if_pos ha]; exact hok.symm⟩
       case isFalse ha =>
         rw [setCol_of_not_mem _ hmn,
           setCol_of_not_mem _
             (not_mem_names_append hyr (not_mem_colNames_single _ (by decide))),
           setCol_of_not_mem _
             (not_mem_names_append
               (not_mem_names_append hcd (not_mem_colNames_single _ (by decide)))
               (not_mem_colNames_single _ (by decide))),
           dropCol_append, dropCol_append, dropCol_append,
           dropCol_eq_self hmn, dropCol_single_self,
           dropCol_single_ne _ (by decide), dropCol_single_ne _ (by decide)] at hok
         simp only [List.append_assoc, List.append_nil, List.nil_append,
           List.singleton_append, List.cons_append] at hok
         exact ⟨_, _, [], [], by rw [if_neg ha]; exact hok.symm⟩)

theorem reconstruct_month_mem {df : Table} {ai : Bool} {sy : Int} {out : Table}
    (h : reconstruct_contact_date df ai sy = .ok out) :
    "month" ∈ colNames df := by
  simp only [reconstruct_contact_date] at h
  split at h
  case isTrue hmem => exact hmem
  case isFalse => cases h

theorem reconstruct_not_mem_month_num {df : Table} {ai : Bool} {sy : Int} {out : Table}
    (h : reconstruct_contact_date df ai sy = .ok out) :
    "month_num" ∉ colNames out := by
  simp only [reconstruct_contact_date] at h
  split at h
  case isFalse => cases h
  case isTrue hmem =>
  split at h
  case isTrue => cases h
  case isFalse hnoinv =>
  split at h
  case h_1 => cases h
  case h_2 m0 rest heq =>
  split at h <;>
    (split at h
     case isFalse => cases h
     case isTrue hall =>
       rw [Except.ok.injEq] at h
       subst h
       exact not_mem_colNames_dropCol _ _)

/-- Claim C1: for a table whose month column holds only valid abbreviations, the
years are assigned by the single in-order scan — the first assigned year is
the starting year, and each subsequent year increments by one exactly when
the month number strictly decreases; on `['may','jun','dec','jan']` with
start year 2008 the years are `[2008, 2008, 2008, 2009]` and the dates
`[2008-05-01, 2008-06-01, 2008-12-01, 2009-01-01]`. -/
theorem C1_sequential_year_inference (df : Table) (ai : Bool) (sy : Int)
    (ms : List Value) (m0 : Nat) (rest : List Nat)
    (hms : getCol df "month" = some ms)
    (hvalid : ms.map monthNumOf = (m0 :: rest).map some)
    (hday : "day" ∉ colNames df) :
    (∃ out, reconstruct_contact_date df ai sy = .ok out ∧
       getCol out "year" = some ((inferYears sy (m0 :: rest)).map Value.vInt)) ∧
    (inferYears sy (m0 :: rest)).length = (m0 :: rest).length ∧
    (inferYears sy (m0 :: rest)).head? = some sy ∧
    List.Chain' (fun p q : Int × Nat => q.1 = if q.2 < p.2 then p.1 + 1 else p.1)
      ((inferYears sy (m0 :: rest)).zip (m0 :: rest)) ∧
    reconstruct_contact_date
        [("month", [Value.vStr "may", Value.vStr "jun", Value.vStr "dec",
          Value.vStr "jan"])] false 2008
      = Except.ok [("month", [Value.vStr "may", Value.vStr "jun", Value.vStr "dec",
            Value.vStr "jan"]),
          ("year", [Value.vInt 2008, Value.vInt 2008, Value.vInt 2008, Value.vInt 2009]),
          ("contact_date", [Value.vDate 2008 5 1, Value.vDate 2008 6 1,
            Value.vDate 2008 12 1, Value.vDate 2009 1 1])] := by
  refine ⟨?_, inferYears_length sy _, inferYears_head sy m0 rest,
    inferYears_chain_step sy _, rfl⟩
  obtain ⟨out, hok⟩ := reconstruct_ok_of_valid df ai sy ms m0 rest hms hvalid hday
  obtain ⟨m0x, restx, heq, hyear⟩ := reconstruct_year_col df ai sy out hok
  have hnums : ms.map (fun v => (monthNumOf v).getD 0) = m0 :: rest :=
    map_getD_of_map_eq hvalid
  rw [hms] at heq
  simp only [Option.getD_some] at heq
  rw [hnums] at heq
  rw [← heq] at hyear
  exact ⟨out, hok, hyear⟩

theorem C1_sequential_year_inference_witness :
    ∃ out, reconstruct_contact_date
        [("month", [Value.vStr "may", Value.vStr "jun", Value.vStr "dec",
          Value.vStr "jan"])] false 2008 = .ok out ∧
      getCol out "year" = some ((inferYears 2008 [5, 6, 12, 1]).map Value.vInt) :=
  (C1_sequential_year_inference
    [("month", [Value.vStr "may", Value.vStr "jun", Value.vStr "dec", Value.vStr "jan"])]
    false 2008
    [Value.vStr "may", Value.vStr "jun", Value.vStr "dec", Value.vStr "jan"]
    5 [6, 12, 1] rfl rfl (by decide)).1

/-- Claim C8: for every input the Date Reconstructor accepts, the year column of
the result is monotonically non-decreasing across rows in input order. -/
theorem C8_year_monotone (df : Table) (ai : Bool) (sy : Int) (out : Table)
    (h : reconstruct_contact_date df ai sy = .ok out) :
    ∃ ys : List Int, getCol out "year" = some (ys.map Value.vInt) ∧
      List.Chain' (· ≤ ·) ys := by
  obtain ⟨m0, rest, heq, hyear⟩ := reconstruct_year_col df ai sy out h
  exact ⟨inferYears sy (m0 :: rest), hyear, inferYears_mono sy _⟩

theorem C8_year_monotone_witness :
    ∃ ys : List Int,
      getCol [("month", [Value.vStr "may", Value.vStr "jun", Value.vStr "dec",
          Value.vStr "jan"]),
        ("year", [Value.vInt 2008, Value.vInt 2008, Value.vInt 2008, Value.vInt 2009]),
        ("contact_date", [Value.vDate 2008 5 1, Value.vDate 2008 6 1,
          Value.vDate 2008 12 1, Value.vDate 2009 1 1])] "year"
        = some (ys.map Value.vInt) ∧
      List.Chain' (· ≤ ·) ys :=
  C8_year_monotone
    [("month", [Value.vStr "may", Value.vStr "jun", Value.vStr "dec",
      Value.vStr "jan"])] false 2008 _ rfl

/-- Claim C10: when the input already has a `month_num` column, the Date
Reconstructor overwrites it with the working month numbers and then drops
it, so the returned table has no `month_num` column (the input value
itself, being a pure value in this embedding, is untouched). -/
theorem C10_month_num_column_dropped (df : Table) (ai : Bool) (sy : Int) (out : Table)
    (_hpre : "month_num" ∈ colNames df)
    (h : reconstruct_contact_date df ai sy = .ok out) :
    "month_num" ∉ colNames out :=
  reconstruct_not_mem_month_num h

theorem C10_month_num_column_dropped_witness :
    "month_num" ∉ colNames [("month", [Value.vStr "jan"]),
      ("year", [Value.vInt 2008]), ("contact_date", [Value.vDate 2008 1 1])] :=
  C10_month_num_column_dropped
    [("month", [Value.vStr "jan"]), ("month_num", [Value.vInt 99])] false 2008 _
    (by decide) rfl

theorem C3_counterexample :
    reconstruct_contact_date [("month", [])] false 2008
      = Except.error Err.indexError := rfl

/-- Claim C3 (amended): for an input table with zero rows but a month column,
the Date Reconstructor does not return an empty table — reading the first
row's month number fails with an index error. -/
theorem C3_empty_input_index_failure (df : Table) (ai : Bool) (sy : Int)
    (h : getCol df "month" = some []) :
    reconstruct_contact_date df ai sy = .error Err.indexError := by
  have hmem : "month" ∈ colNames df := mem_colNames_of_getCol_some h
  simp only [reconstruct_contact_date, hmem, if_true, h, Option.getD_some,
    List.any_nil, Bool.false_eq_true, if_false, List.map_nil]

theorem C3_empty_input_index_failure_witness :
    reconstruct_contact_date [("month", []), ("day", [])] false 2008
      = Except.error Err.indexError :=
  C3_empty_input_index_failure [("month", []), ("day", [])] false 2008 rfl

/-- Claim C4: any month value outside the fixed twelve-abbreviation table (after
lowercasing) makes the Date Reconstructor fail with an invalid-value error
whose payload is exactly the deduplicated set of offending raw values. -/
theorem C4_invalid_months_error (df : Table) (ai : Bool) (sy : Int) (ms : List Value)
    (hms : getCol df "month" = some ms)
    (hbad : ms.any (fun v => (monthNumOf v).isNone) = true) :
    ∃ bad, reconstruct_contact_date df ai sy = .error (.invalidValueError bad) ∧
      bad.Nodup ∧ ∀ v, v ∈ bad ↔ (v ∈ ms ∧ monthNumOf v = none) := by
  have hmem : "month" ∈ colNames df := mem_colNames_of_getCol_some hms
  refine ⟨uniqueFirst (ms.filter (fun v => (monthNumOf v).isNone)), ?_,
    nodup_uniqueFirst _, ?_⟩
  · simp only [reconstruct_contact_date, hmem, if_true, hms, Option.getD_some,
      hbad, if_true]
  · intro v
    rw [mem_uniqueFirst, List.mem_filter]
    simp [Option.isNone_iff_eq_none]

theorem C4_invalid_months_error_witness :
    ∃ bad, reconstruct_contact_date
        [("month", [Value.vStr "may", Value.vStr "XYZ", Value.vStr "foo",
          Value.vStr "XYZ"])] false 2008
      = .error (.invalidValueError bad) ∧
      bad.Nodup ∧
      ∀ v, v ∈ bad ↔
        (v ∈ [Value.vStr "may", Value.vStr "XYZ", Value.vStr "foo", Value.vStr "XYZ"]
          ∧ monthNumOf v = none) :=
  C4_invalid_months_error
    [("month", [Value.vStr "may", Value.vStr "XYZ", Value.vStr "foo", Value.vStr "XYZ"])]
    false 2008
    [Value.vStr "may", Value.vStr "XYZ", Value.vStr "foo", Value.vStr "XYZ"]
    rfl rfl

theorem C9_counterexample :
    reconstruct_contact_date
        [("month", [Value.vStr "jan"]), ("month_num", [Value.vInt 99])] false 2008
      = Except.ok [("month", [Value.vStr "jan"]), ("year", [Value.vInt 2008]),
          ("contact_date", [Value.vDate 2008 1 1])] ∧
    "month_num" ∉ colNames [("month", [Value.vStr "jan"]), ("year", [Value.vInt 2008]),
        ("contact_date", [Value.vDate 2008 1 1])] :=
  ⟨rfl, by decide⟩

/-- Claim C9 (amended): on success both functions return a new table with the
input's row count, with new columns appended at the end, and with every
original column preserved — provided no original column shares a name with
a working or output column (`month_num`, `year`, `contact_date`,
`quarter`, `year_quarter` for the Date Reconstructor, `pseudo_id` for the
Identity Synthesizer); a pre-existing `month_num` column is dropped, and
pre-existing output-named columns are overwritten.  In this pure embedding
the caller's table value is never modified. -/
theorem C9_returns_new_table_with_appended_columns :
    (∀ (df : Table) (ai : Bool) (sy : Int) (out : Table),
       "month_num" ∉ colNames df → "year" ∉ colNames df →
       "contact_date" ∉ colNames df → "quarter" ∉ colNames df →
       "year_quarter" ∉ colNames df →
       reconstruct_contact_date df ai sy = .ok out →
       nRows out = nRows df ∧
       (∀ c ∈ colNames df, getCol out c = getCol df c) ∧
       colNames out = colNames df ++
         (if ai then ["year", "contact_date", "quarter", "year_quarter"]
          else ["year", "contact_date"])) ∧
    (∀ (df : Table) (idc : Option (List String)) (out : Table),
       "pseudo_id" ∉ colNames df →
       create_pseudo_customer_id df idc = .ok out →
       nRows out = nRows df ∧
       (∀ c ∈ colNames df, getCol out c = getCol df c) ∧
       colNames out = colNames df ++ ["pseudo_id"]) := by
  constructor
  · intro df ai sy out hmn hyr hcd hq hyq hok
    have hdf : df ≠ [] := ne_nil_of_mem_colNames (reconstruct_month_mem hok)
    obtain ⟨yv, cv, qv, yqv, hshape⟩ :=
      reconstruct_ok_shape df ai sy out hmn hyr hcd hq hyq hok
    subst hshape
    cases ai
    · exact ⟨nRows_append_left _ _ hdf, fun c hc => getCol_append_left hc,
        by rw [colNames_append]; rfl⟩
    · exact ⟨nRows_append_left _ _ hdf, fun c hc => getCol_append_left hc,
        by rw [colNames_append]; rfl⟩
  · intro df idc out hpid hok
    simp only [create_pseudo_customer_id] at hok
    split at hok
    case isFalse => cases hok
    case isTrue hemp =>
      rw [Except.ok.injEq] at hok
      rw [setCol_of_not_mem _ hpid] at hok
      subst hok
      refine ⟨?_, fun c hc => getCol_append_left hc, by rw [colNames_append]; rfl⟩
      cases df with
      | nil => rfl
      | cons p rest => rfl

theorem C9_returns_new_table_with_appended_columns_witness :
    (nRows [("month", [Value.vStr "jan"]), ("year", [Value.vInt 2008]),
        ("contact_date", [Value.vDate 2008 1 1])]
      = nRows [("month", [Value.vStr "jan"])] ∧
     (∀ c ∈ colNames [("month", [Value.vStr "jan"])],
        getCol [("month", [Value.vStr "jan"]), ("year", [Value.vInt 2008]),
          ("contact_date", [Value.vDate 2008 1 1])] c
          = getCol [("month", [Value.vStr "jan"])] c) ∧
     colNames [("month", [Value.vStr "jan"]), ("year", [Value.vInt 2008]),
         ("contact_date", [Value.vDate 2008 1 1])]
       = colNames [("month", [Value.vStr "jan"])] ++ ["year", "contact_date"]) ∧
    (nRows [("age", [Value.vInt 30]), ("job", [Value.vStr "admin."]),
        ("pseudo_id", [Value.vStr "30_admin."])]
      = nRows [("age", [Value.vInt 30]), ("job", [Value.vStr "admin."])] ∧
     (∀ c ∈ colNames [("age", [Value.vInt 30]), ("job", [Value.vStr "admin."])],
        getCol [("age", [Value.vInt 30]), ("job", [Value.vStr "admin."]),
          ("pseudo_id", [Value.vStr "30_admin."])] c
          = getCol [("age", [Value.vInt 30]), ("job", [Value.vStr "admin."])] c) ∧
     colNames [("age", [Value.vInt 30]), ("job", [Value.vStr "admin."]),
         ("pseudo_id", [Value.vStr "30_admin."])]
       = colNames [("age", [Value.vInt 30]), ("job", [Value.vStr "admin."])]
         ++ ["pseudo_id"]) := by
  constructor
  · have hfirst := C9_returns_new_table_with_appended_columns.1
      [("month", [Value.vStr "jan"])] false 2008
      [("month", [Value.vStr "jan"]), ("year", [Value.vInt 2008]),
        ("contact_date", [Value.vDate 2008 1 1])]
      (by decide) (by decide) (by decide) (by decide) (by decide) rfl
    exact hfirst
  · have hsecond := C9_returns_new_table_with_appended_columns.2
      [("age", [Value.vInt 30]), ("job", [Value.vStr "admin."])]
      (some ["age", "job"])
      [("age", [Value.vInt 30]), ("job", [Value.vStr "admin."]),
        ("pseudo_id", [Value.vStr "30_admin."])]
      (by decide) rfl
    exact hsecond

/-- Claim C2: when every requested identifier field is present, each row's
`pseudo_id` is the underscore-join of the string forms of its field values
in field order; rows with identical values across the identifier fields get
identical identifiers, and `(30, 'admin.')` under `['age','job']` yields
`"30_admin."`. -/
theorem C2_pseudo_id_concatenation (df : Table) (cols : List String)
    (hall : ∀ c ∈ cols, c ∈ colNames df) :
    (∃ out, create_pseudo_customer_id df (some cols) = .ok out ∧
       getCol out "pseudo_id" = some ((List.range (nRows df)).map (fun i =>
         Value.vStr (String.intercalate "_"
           (cols.map (fun c => valueStr (cellVal df c i))))))) ∧
    (∀ i j : Nat, (∀ c ∈ cols, cellVal df c i = cellVal df c j) →
       String.intercalate "_" (cols.map (fun c => valueStr (cellVal df c i)))
         = String.intercalate "_" (cols.map (fun c => valueStr (cellVal df c j)))) ∧
    create_pseudo_customer_id [("age", [Value.vInt 30]), ("job", [Value.vStr "admin."])]
        (some ["age", "job"])
      = Except.ok [("age", [Value.vInt 30]), ("job", [Value.vStr "admin."]),
          ("pseudo_id", [Value.vStr "30_admin."])] := by
  refine ⟨?_, ?_, rfl⟩
  · have hfil : cols.filter (fun c => c ∉ colNames df) = [] :=
      List.filter_eq_nil_iff.mpr (fun c hc => by simp [hall c hc])
    refine ⟨_, ?_, getCol_setCol_self df "pseudo_id" _⟩
    simp only [create_pseudo_customer_id, Option.getD_some, hfil]
    rfl
  · intro i j hcells
    have hmaps : cols.map (fun c => valueStr (cellVal df c i))
        = cols.map (fun c => valueStr (cellVal df c j)) :=
      List.map_congr_left (fun c hc => by rw [hcells c hc])
    rw [hmaps]

theorem C2_pseudo_id_concatenation_witness :
    ∃ out, create_pseudo_customer_id
        [("age", [Value.vInt 30]), ("job", [Value.vStr "admin."])]
        (some ["age", "job"]) = .ok out ∧
      getCol out "pseudo_id" = some
        ((List.range (nRows [("age", [Value.vInt 30]), ("job", [Value.vStr "admin."])])).map
          (fun i => Value.vStr (String.intercalate "_"
            (["age", "job"].map (fun c => valueStr
              (cellVal [("age", [Value.vInt 30]), ("job", [Value.vStr "admin."])] c i)))))) :=
  (C2_pseudo_id_concatenation
    [("age", [Value.vInt 30]), ("job", [Value.vStr "admin."])]
    ["age", "job"] (by decide)).1

/-- Claim C7: when some requested identifier field is absent, the Identity
Synthesizer fails with a missing-field error naming exactly the set of
requested fields absent from the table, and produces no table at all. -/
theorem C7_missing_fields_error (df : Table) (cols : List String)
    (hmiss : cols.filter (fun c => c ∉ colNames df) ≠ []) :
    ∃ missing, create_pseudo_customer_id df (some cols)
        = .error (.missingFieldError missing) ∧
      missing.Nodup ∧ ∀ c, c ∈ missing ↔ (c ∈ cols ∧ c ∉ colNames df) := by
  refine ⟨uniqueFirst (cols.filter (fun c => c ∉ colNames df)), ?_,
    nodup_uniqueFirst _, ?_⟩
  · have hne : uniqueFirst (cols.filter (fun c => c ∉ colNames df)) ≠ [] :=
      uniqueFirst_ne_nil hmiss
    simp only [create_pseudo_customer_id, Option.getD_some]
    rw [if_neg (by simpa [List.isEmpty_eq_true] using hne)]
  · intro c
    rw [mem_uniqueFirst, List.mem_filter]
    simp

theorem C7_missing_fields_error_witness :
    ∃ missing, create_pseudo_customer_id [("age", [Value.vInt 30])]
        (some ["age", "job", "marital", "job"])
        = .error (.missingFieldError missing) ∧
      missing.Nodup ∧
      ∀ c, c ∈ missing ↔
        (c ∈ ["age", "job", "marital", "job"] ∧ c ∉ colNames [("age", [Value.vInt 30])]) :=
  C7_missing_fields_error [("age", [Value.vInt 30])] ["age", "job", "marital", "job"]
    (by decide)

/-- Claim C5: given the six required counts, the flow-diagram builder emits the
fixed 7-node topology with exactly six links valued `wave_1_and_2`,
`total_contacts - wave_1_and_2`, `single_wave`, `cross_wave`,
`final_wave_1`, `final_wave_2`; with `total_contacts=1000` and
`wave_1_and_2=600` the All→OtherPeriods link carries 400. -/
theorem C5_flow_diagram_links (d : List (String × Int)) (w t s c f1 f2 : Int)
    (hw : dictGet d "wave_1_and_2" = .ok w)
    (ht : dictGet d "total_contacts" = .ok t)
    (hs : dictGet d "single_wave" = .ok s)
    (hc : dictGet d "cross_wave" = .ok c)
    (hf1 : dictGet d "final_wave_1" = .ok f1)
    (hf2 : dictGet d "final_wave_2" = .ok f2) :
    (∃ fig, create_sample_flow_diagram d = .ok fig ∧
       fig.links = [⟨0, 1, w⟩, ⟨0, 2, t - w⟩, ⟨1, 3, s⟩, ⟨1, 4, c⟩,
         ⟨3, 5, f1⟩, ⟨3, 6, f2⟩] ∧
       fig.labels.length = 7) ∧
    create_sample_flow_diagram
        [("total_contacts", 1000), ("wave_1_and_2", 600), ("single_wave", 400),
         ("cross_wave", 200), ("final_wave_1", 250), ("final_wave_2", 150)]
      = Except.ok ⟨["All Contacts", "Wave 1 or 2", "Other Periods", "Single-Wave",
            "Cross-Wave", "Final Wave 1", "Final Wave 2"],
          ["lightgray", "lightblue", "lightgray", "lightgreen", "salmon",
            "green", "green"],
          [⟨0, 1, 600⟩, ⟨0, 2, 400⟩, ⟨1, 3, 400⟩, ⟨1, 4, 200⟩,
            ⟨3, 5, 250⟩, ⟨3, 6, 150⟩]⟩ := by
  refine ⟨?_, rfl⟩
  have hfig : create_sample_flow_diagram d
      = .ok ⟨["All Contacts", "Wave 1 or 2", "Other Periods", "Single-Wave",
            "Cross-Wave", "Final Wave 1", "Final Wave 2"],
          ["lightgray", "lightblue", "lightgray", "lightgreen", "salmon",
            "green", "green"],
          [⟨0, 1, w⟩, ⟨0, 2, t - w⟩, ⟨1, 3, s⟩, ⟨1, 4, c⟩,
            ⟨3, 5, f1⟩, ⟨3, 6, f2⟩]⟩ := by
    simp only [create_sample_flow_diagram, hw, ht, hs, hc, hf1, hf2]
    rfl
  exact ⟨_, hfig, rfl, rfl⟩

theorem C5_flow_diagram_links_witness :
    ∃ fig, create_sample_flow_diagram
        [("total_contacts", 1000), ("wave_1_and_2", 600), ("single_wave", 400),
         ("cross_wave", 200), ("final_wave_1", 250), ("final_wave_2", 150)]
      = .ok fig ∧
      fig.links = [⟨0, 1, 600⟩, ⟨0, 2, 1000 - 600⟩, ⟨1, 3, 400⟩, ⟨1, 4, 200⟩,
        ⟨3, 5, 250⟩, ⟨3, 6, 150⟩] ∧
      fig.labels.length = 7 :=
  (C5_flow_diagram_links
    [("total_contacts", 1000), ("wave_1_and_2", 600), ("single_wave", 400),
     ("cross_wave", 200), ("final_wave_1", 250), ("final_wave_2", 150)]
    600 1000 400 200 250 150 rfl rfl rfl rfl rfl rfl).1

/-- Claim C6: the balance chart colors each bar green when its absolute
percentage difference is strictly below 10, orange when it is at least 10
and strictly below 20, and red when it is at least 20 — ties at 10 and 20
go to the higher-severity bucket — so `[5, 10, 15, 20, 25]` maps to
`[green, orange, orange, red, red]`. -/
theorem C6_balance_bar_colors (diffs : List Rat) (i : Nat) (x : Rat)
    (hx : diffs[i]? = some x) :
    ((x < 10 → (plot_covariate_balance diffs).colors[i]? = some "green") ∧
     (10 ≤ x → x < 20 → (plot_covariate_balance diffs).colors[i]? = some "orange") ∧
     (20 ≤ x → (plot_covariate_balance diffs).colors[i]? = some "red")) ∧
    (plot_covariate_balance [5, 10, 15, 20, 25]).colors
      = ["green", "orange", "orange", "red", "red"] := by
  refine ⟨?_, rfl⟩
  have hcol : (plot_covariate_balance diffs).colors[i]? = some (barColor x) := by
    simp only [plot_covariate_balance, List.getElem?_map, hx, Option.map_some']
  refine ⟨fun h1 => ?_, fun h1 h2 => ?_, fun h1 => ?_⟩
  · rw [hcol, barColor, if_pos h1]
  · rw [hcol, barColor, if_neg (not_lt.mpr h1), if_pos h2]
  · rw [hcol, barColor, if_neg (not_lt.mpr (by linarith)), if_neg (not_lt.mpr h1)]

theorem C6_balance_bar_colors_witness :
    (plot_covariate_balance [(5 : Rat)]).colors[0]? = some "green" :=
  ((C6_balance_bar_colors [(5 : Rat)] 0 5 rfl).1).1 (by norm_num)
